import Mathlib

/-!
Verification of the Mattermost client's pagination and normalization layer
(`MattermostClient` in `src/client.ts`).

Shallow embedding conventions:
* Item ids are an abstract type `ι` (the code treats post ids opaquely), post
  bodies are `π`, channel records `χ`, user records `υ`.
* JS thrown `Error` values always carry a message string, so the error type is
  `String` and fallible calls return `Except String α`.
* A JS object used as a map (`Record<string, Post>`) is an association list
  `List (ι × π)`; `Object.assign` is embedded key-by-key with JS key-order
  semantics (existing key updated in place, new key appended).
* The network is a collaborator: the aggregator receives the single-page
  fetcher `fetch : Nat → Except String (PostsResponse ι π)` (the page index is
  the only argument that varies across an aggregation run; channel id, the
  fixed per-page size 200 and the filter set are curried away).
* The `while` loop of `getAllPostsForChannel` is embedded with explicit fuel:
  `none` means the run was cut off before the loop finished, `some r` is a run
  that completed with result `r`; theorems quantify over completed runs.
-/

namespace Mattermost

/-- The `PostsResponse` shape of the Mattermost API (`types.ts`): an ordered
list of post ids, a keyed map of posts, and two cursor ids. -/
structure PostsResponse (ι π : Type) where
  order : List ι
  posts : List (ι × π)
  next_post_id : String
  prev_post_id : String
deriving DecidableEq, Repr

/-- The normalized channels envelope (`ChannelsResponse` in `types.ts`). -/
structure ChannelsResponse (χ : Type) where
  channels : List χ
  total_count : Nat
deriving DecidableEq, Repr

/-- The normalized users envelope (`UsersResponse` in `types.ts`). -/
structure UsersResponse (υ : Type) where
  users : List υ
  total_count : Nat
deriving DecidableEq, Repr

/-- A raw decoded JSON payload as observed by the normalization step in
`getChannels` / `getUsers`: either a bare array of records, or anything the
`Array.isArray` test rejects — which the code then casts (uncast pass-through)
to the envelope type `E`. -/
inductive RawPayload (α : Type) (E : Type) where
  | arr (xs : List α)
  | obj (o : E)
deriving DecidableEq, Repr

/-- Normalization step of `getChannels` (client.ts lines 56-64): a bare array
is wrapped into `{channels, total_count}`; a non-array is returned as-is
(the `as ChannelsResponse` cast changes nothing at runtime). -/
def normalizeChannels {χ : Type} :
    RawPayload χ (ChannelsResponse χ) → ChannelsResponse χ
  | .arr xs => { channels := xs, total_count := xs.length }
  | .obj o => o

/-- Normalization step of `getUsers` (client.ts lines 246-253). -/
def normalizeUsers {υ : Type} :
    RawPayload υ (UsersResponse υ) → UsersResponse υ
  | .arr xs => { users := xs, total_count := xs.length }
  | .obj o => o

/-- One HTTP response as the client observes it: status, status text, the
body read as text, and the body decoded as JSON (already at the type the
call-site casts it to). -/
structure HttpResp (J : Type) where
  status : Nat
  statusText : String
  bodyText : String
  json : J
deriving DecidableEq, Repr

/-- The `response.ok` flag of fetch: status in the range 200-299. -/
def respOk {J : Type} (r : HttpResp J) : Bool :=
  decide (200 ≤ r.status) && decide (r.status < 300)

/-- Response handling of `getChannels` (client.ts lines 38-68): on a
non-success status, throw an error built from status, status text and the
body text; otherwise normalize the decoded payload. -/
def getChannels {χ : Type} (r : HttpResp (RawPayload χ (ChannelsResponse χ))) :
    Except String (ChannelsResponse χ) :=
  if respOk r then .ok (normalizeChannels r.json)
  else .error ("Failed to get channels: " ++ toString r.status ++ " "
    ++ r.statusText ++ " - " ++ r.bodyText)

/-- Response handling of `getUsers` (client.ts lines 237-253): the error
message carries status and status text only (the body is not read). -/
def getUsers {υ : Type} (r : HttpResp (RawPayload υ (UsersResponse υ))) :
    Except String (UsersResponse υ) :=
  if respOk r then .ok (normalizeUsers r.json)
  else .error ("Failed to get users: " ++ toString r.status ++ " "
    ++ r.statusText)

/-- Response handling of the single-page post fetch `getPostsForChannel`
(client.ts lines 128-134): on a non-success status, throw
`Failed to get posts: <status> <statusText>`; otherwise return the decoded
body cast to `PostsResponse`. -/
def getPostsForChannel {ι π : Type} (r : HttpResp (PostsResponse ι π)) :
    Except String (PostsResponse ι π) :=
  if respOk r then .ok r.json
  else .error ("Failed to get posts: " ++ toString r.status ++ " "
    ++ r.statusText)

/-- The optional filter set of `getPostsForChannel` (client.ts lines 108-112):
`since` a millisecond timestamp, `before` / `after` post ids. `none` models an
absent (`undefined`) field. -/
structure PostsOptions where
  since : Option Nat
  before : Option String
  after : Option String
deriving DecidableEq, Repr

/-- Query-parameter construction of `getPostsForChannel` (client.ts lines
114-126), in append order. Each filter is appended only when the JS condition
`if (options?.since)` / `if (options?.before)` / `if (options?.after)` holds,
i.e. when the field is present and truthy (a number other than 0, a non-empty
string). -/
def postsQuery (limit page : Nat) (o : PostsOptions) : List (String × String) :=
  [("page", toString page), ("per_page", toString limit)]
    ++ (match o.since with
        | some s => if s ≠ 0 then [("since", toString s)] else []
        | none => [])
    ++ (match o.before with
        | some b => if b ≠ "" then [("before", b)] else []
        | none => [])
    ++ (match o.after with
        | some a => if a ≠ "" then [("after", a)] else []
        | none => [])

/-- The empty posts page (also the default used to read a page out of an
`Except` known to be `ok`). -/
def emptyPage {ι π : Type} : PostsResponse ι π :=
  { order := [], posts := [], next_post_id := "", prev_post_id := "" }

/-- The page the fetcher returns at index `i`, with `emptyPage` as the
placeholder on a thrown error. -/
def pageAt {ι π : Type} (fetch : Nat → Except String (PostsResponse ι π))
    (i : Nat) : PostsResponse ι π :=
  match fetch i with
  | .ok r => r
  | .error _ => emptyPage

/-- One key-value write of `Object.assign`: an existing key is updated in
place (JS objects keep the original insertion position), a new key is
appended. -/
def assignOne {ι π : Type} [DecidableEq ι] (m : List (ι × π)) (kv : ι × π) :
    List (ι × π) :=
  if m.any (fun e => decide (e.1 = kv.1)) then
    m.map (fun e => if e.1 = kv.1 then (e.1, kv.2) else e)
  else m ++ [kv]

/-- Embedding of `Object.assign(target, src)` (client.ts line 167): every key of `src` is
written into `target` in order. -/
def objAssign {ι π : Type} [DecidableEq ι] (m src : List (ι × π)) :
    List (ι × π) :=
  src.foldl assignOne m

/-- The loop guard comparison `allOrder.length < maxPosts`, where `none` is the `Infinity` sentinel. -/
def ltCap (n : Nat) : Option Nat → Bool
  | none => true
  | some c => decide (n < c)

/-- The cap-reached comparison `allOrder.length >= maxPosts`, where `none` is the `Infinity` sentinel. -/
def geCap (n : Nat) : Option Nat → Bool
  | none => false
  | some c => decide (c ≤ n)

/-- Truncation `allOrder.slice(0, maxPosts)`: a `slice` up to `Infinity` keeps the whole
list. -/
def takeCap {ι : Type} : Option Nat → List ι → List ι
  | none, l => l
  | some c, l => l.take c

/-- The cap actually used by the loop: `options?.maxPosts || Infinity`
(client.ts line 152). An absent field or the falsy value `0` both fall back
to the `Infinity` sentinel `none`. -/
def capOf : Option Nat → Option Nat
  | none => none
  | some 0 => none
  | some (n + 1) => some (n + 1)

/-- Final state of the aggregation loop: the accumulated keyed posts, the
accumulated order list, and the page indices requested so far (in order). -/
structure LoopOut (ι π : Type) where
  posts : List (ι × π)
  order : List ι
  reqs : List Nat
deriving DecidableEq, Repr

/-- The `while` loop of `getAllPostsForChannel` (client.ts lines 154-178),
with explicit fuel. State: `hasMore`, `page`, `allPosts`, `allOrder`, plus the
trace `reqs` of issued page requests. Each iteration: check
`hasMore && allOrder.length < maxPosts`; fetch the page (a throw propagates);
an empty `order` breaks; otherwise merge posts (`Object.assign`), append the
order, set `hasMore` to `order.length === 200`, increment the page, and break
once the cap is reached. -/
def aggLoop {ι π : Type} [DecidableEq ι]
    (fetch : Nat → Except String (PostsResponse ι π)) (cap : Option Nat) :
    Nat → Bool → Nat → List (ι × π) → List ι → List Nat →
    Option (Except String (LoopOut ι π))
  | 0, _, _, _, _, _ => none
  | fuel + 1, hasMore, page, allPosts, allOrder, reqs =>
    if hasMore && ltCap allOrder.length cap then
      match fetch page with
      | .error e => some (.error e)
      | .ok response =>
        if response.order.length = 0 then
          some (.ok ⟨allPosts, allOrder, reqs ++ [page]⟩)
        else
          let allPosts' := objAssign allPosts response.posts
          let allOrder' := allOrder ++ response.order
          let hasMore' := decide (response.order.length = 200)
          if geCap allOrder'.length cap then
            some (.ok ⟨allPosts', allOrder', reqs ++ [page]⟩)
          else
            aggLoop fetch cap fuel hasMore' (page + 1) allPosts' allOrder'
              (reqs ++ [page])
    else
      some (.ok ⟨allPosts, allOrder, reqs⟩)

/-- The aggregator `getAllPostsForChannel` (client.ts lines 138-186): resolve the cap with
the `||` fallback, run the loop from page 0 with empty accumulators, and
return the order truncated to the cap together with the merged posts (cursor
fields cleared). The second component is the request trace. `none` means the
fuel ran out before the loop finished. -/
def getAllPostsForChannel {ι π : Type} [DecidableEq ι]
    (fetch : Nat → Except String (PostsResponse ι π)) (maxPosts : Option Nat)
    (fuel : Nat) :
    Option (Except String (PostsResponse ι π × List Nat)) :=
  let cap := capOf maxPosts
  match aggLoop fetch cap fuel true 0 [] [] [] with
  | none => none
  | some (.error e) => some (.error e)
  | some (.ok out) =>
    some (.ok (⟨takeCap cap out.order, out.posts, "", ""⟩, out.reqs))

/-- An upstream holding the collection `ids`, served in 200-sized chunks:
page `i` returns ids `200*i` to `200*i+199`, each mapped to its post body by
`pOf`. This is the standard well-behaved upstream of the spec ("the upstream
collection"). -/
def chunkFetch {ι π : Type} (ids : List ι) (pOf : ι → π) :
    Nat → Except String (PostsResponse ι π) :=
  fun i =>
    .ok { order := (ids.drop (200 * i)).take 200
        , posts := ((ids.drop (200 * i)).take 200).map (fun k => (k, pOf k))
        , next_post_id := ""
        , prev_post_id := "" }

/-- An upstream of exactly two pages: page 0 is `p1`, page 1 is `p2`, every
later page is empty. -/
def twoPageFetch {ι π : Type} (p1 p2 : PostsResponse ι π) :
    Nat → Except String (PostsResponse ι π) :=
  fun i => .ok (if i = 0 then p1 else if i = 1 then p2 else emptyPage)

/-- The single-page fetcher the aggregator actually drives, assembled from a
network `net` of HTTP responses per page index through `getPostsForChannel`. -/
def fetchOfNet {ι π : Type} (net : Nat → HttpResp (PostsResponse ι π)) :
    Nat → Except String (PostsResponse ι π) :=
  fun i => getPostsForChannel (net i)

/-- Read a completed, non-throwing result out of a run, with a default. -/
def okOr {α : Type} (d : α) : Option (Except String α) → α
  | some (.ok a) => a
  | _ => d

/-- Concrete capped run: 250 upstream ids served in chunks, cap 230. -/
def c1out : PostsResponse Nat Nat × List Nat :=
  okOr (emptyPage, [])
    (getAllPostsForChannel (chunkFetch (List.range 250) (fun k => k))
      (some 230) 3)

/-- Concrete uncapped upstream of 447 ids: pages of sizes 200, 200, 47. -/
def c2fetch : Nat → Except String (PostsResponse Nat Nat) :=
  chunkFetch (List.range 447) (fun k => k)

/-- The completed run over `c2fetch` with no cap. -/
def c2out : PostsResponse Nat Nat × List Nat :=
  okOr (emptyPage, []) (getAllPostsForChannel c2fetch none 5)

/-- Concrete network: page 0 answers 200 OK with a full page of 200 posts,
every later page answers HTTP 500. -/
def c3net : Nat → HttpResp (PostsResponse Nat Nat) := fun i =>
  if i = 0 then
    ⟨200, "OK", "",
      ⟨List.range 200, (List.range 200).map (fun k => (k, k)), "", ""⟩⟩
  else ⟨500, "Internal Server Error", "boom", emptyPage⟩

/-- Concrete full first page: ids 0-199. -/
def c4p1 : PostsResponse Nat Nat :=
  ⟨List.range 200, (List.range 200).map (fun k => (k, k)), "", ""⟩

/-- Concrete undersized second page with ids disjoint from `c4p1`. -/
def c4p2 : PostsResponse Nat Nat :=
  ⟨[500, 501], [(500, 500), (501, 501)], "", ""⟩

/-- The completed run over the two pages `c4p1`, `c4p2` with no cap. -/
def c4out : PostsResponse Nat Nat × List Nat :=
  okOr (emptyPage, [])
    (getAllPostsForChannel (twoPageFetch c4p1 c4p2) none 3)

/-- Concrete single-page upstream with three distinct ids. -/
def c8fetch : Nat → Except String (PostsResponse Nat Nat) :=
  twoPageFetch ⟨[0, 1, 2], [(0, 0), (1, 1), (2, 2)], "", ""⟩ emptyPage

/-- The completed run over `c8fetch` with no cap. -/
def c8out : PostsResponse Nat Nat × List Nat :=
  okOr (emptyPage, []) (getAllPostsForChannel c8fetch none 3)

/-! ### Loop lemmas -/

/-- Entering the loop check with a value below the cap means the cap-reached
check on that same value fails. -/
theorem geCap_eq_false_of_ltCap {n : Nat} {cap : Option Nat}
    (h : ltCap n cap = true) : geCap n cap = false := by
  cases cap with
  | none => rfl
  | some c =>
    simp only [ltCap, decide_eq_true_eq] at h
    simp only [geCap, decide_eq_false_iff_not]
    omega

/-- A loop entered with `hasMore = false` returns its state unchanged. -/
theorem aggLoop_hasMore_false {ι π : Type} [DecidableEq ι]
    {fetch : Nat → Except String (PostsResponse ι π)} {cap : Option Nat}
    {fuel k : Nat} {aP : List (ι × π)} {a : List ι} {r : List Nat}
    {out : LoopOut ι π}
    (h : aggLoop fetch cap fuel false k aP a r = some (.ok out)) :
    out = ⟨aP, a, r⟩ := by
  cases fuel with
  | zero => simp [aggLoop] at h
  | succ n =>
    simp only [aggLoop, Bool.false_and, Bool.false_eq_true, if_false,
      Option.some.injEq, Except.ok.injEq] at h
    exact h.symm

/-- Structure of every completed, non-throwing aggregation loop run, for any
cap: the requests issued are consecutive page indices starting at the current
page, every requested fetch succeeded, the accumulated order is the input
order followed by the fetched pages' orders in fetch order, and the
accumulated posts map is the input map `Object.assign`-merged with the posts
of every fetched page whose order was non-empty (an empty page breaks before
merging). -/
theorem aggLoop_ok_struct {ι π : Type} [DecidableEq ι]
    (fetch : Nat → Except String (PostsResponse ι π)) (cap : Option Nat)
    (fuel : Nat) :
    ∀ (k : Nat) (aP : List (ι × π)) (a : List ι) (r : List Nat)
      (out : LoopOut ι π),
    aggLoop fetch cap fuel true k aP a r = some (.ok out) →
    ∃ m : Nat,
      out.reqs = r ++ List.range' k m ∧
      (∀ j < m, fetch (k + j) = .ok (pageAt fetch (k + j))) ∧
      out.order = a ++ (List.range' k m).flatMap
        (fun i => (pageAt fetch i).order) ∧
      out.posts = ((List.range' k m).filter
        (fun i => !(pageAt fetch i).order.isEmpty)).foldl
        (fun acc i => objAssign acc (pageAt fetch i).posts) aP := by
  induction fuel with
  | zero => intro k aP a r out h; simp [aggLoop] at h
  | succ fuel ih =>
    intro k aP a r out h
    rw [aggLoop] at h
    cases hguard : ltCap a.length cap with
    | false =>
      rw [hguard] at h
      simp only [Bool.and_false, Bool.false_eq_true, if_false,
        Option.some.injEq, Except.ok.injEq] at h
      refine ⟨0, ?_, ?_, ?_, ?_⟩ <;> simp [← h]
    | true =>
      rw [hguard] at h
      simp only [Bool.and_true, if_true] at h
      cases hfetch : fetch k with
      | error e => rw [hfetch] at h; simp at h
      | ok resp =>
        rw [hfetch] at h
        dsimp only at h
        have hpage : pageAt fetch k = resp := by simp [pageAt, hfetch]
        by_cases hzero : resp.order.length = 0
        · rw [if_pos hzero] at h
          simp only [Option.some.injEq, Except.ok.injEq] at h
          have horder : resp.order = [] := List.length_eq_zero.mp hzero
          refine ⟨1, ?_, ?_, ?_, ?_⟩
          · simp [← h]
          · intro j hj
            interval_cases j
            simpa [hpage] using hfetch
          · simp [← h, hpage, horder]
          · simp [← h, hpage, horder]
        · rw [if_neg hzero] at h
          have hne : resp.order.isEmpty = false := by
            cases horder : resp.order with
            | nil => exact absurd (by simp [horder]) hzero
            | cons x xs => simp [horder]
          cases hcap2 : geCap (a ++ resp.order).length cap with
          | true =>
            rw [hcap2] at h
            simp only [if_true, Option.some.injEq, Except.ok.injEq] at h
            refine ⟨1, ?_, ?_, ?_, ?_⟩
            · simp [← h]
            · intro j hj
              interval_cases j
              simpa [hpage] using hfetch
            · simp [← h, hpage]
            · simp [← h, hpage, hne]
          | false =>
            rw [hcap2] at h
            simp only [Bool.false_eq_true, if_false] at h
            cases h200 : decide (resp.order.length = 200) with
            | false =>
              rw [h200] at h
              have hout := aggLoop_hasMore_false h
              refine ⟨1, ?_, ?_, ?_, ?_⟩
              · simp [hout]
              · intro j hj
                interval_cases j
                simpa [hpage] using hfetch
              · simp [hout, hpage]
              · simp [hout, hpage, hne]
            | true =>
              rw [h200] at h
              obtain ⟨m', hr, hok, hord, hposts⟩ :=
                ih (k + 1) (objAssign aP resp.posts) (a ++ resp.order)
                  (r ++ [k]) out h
              refine ⟨m' + 1, ?_, ?_, ?_, ?_⟩
              · rw [List.range'_succ, hr]
                simp
              · intro j hj
                cases j with
                | zero => simpa [hpage] using hfetch
                | succ j' =>
                  have := hok j' (by omega)
                  rw [show k + (j' + 1) = k + 1 + j' by omega]
                  exact this
              · rw [List.range'_succ]
                simp only [List.flatMap_cons, hpage]
                rw [hord, List.append_assoc]
              · rw [List.range'_succ]
                rw [List.filter_cons_of_pos (by simp [hpage, hne])]
                simpa [hpage] using hposts

/-- Continuation shape of every completed, non-throwing run of the loop with
no cap: at least one page is requested, every requested page but the last came
back with exactly the per-page size 200 (which is what made the loop
continue), and the last requested page came back with a size other than 200
(which is what made the loop stop). -/
theorem aggLoop_none_struct {ι π : Type} [DecidableEq ι]
    (fetch : Nat → Except String (PostsResponse ι π)) (fuel : Nat) :
    ∀ (k : Nat) (aP : List (ι × π)) (a : List ι) (r : List Nat)
      (out : LoopOut ι π),
    aggLoop fetch none fuel true k aP a r = some (.ok out) →
    ∃ m : Nat, 1 ≤ m ∧
      out.reqs = r ++ List.range' k m ∧
      (∀ j, j + 1 < m → (pageAt fetch (k + j)).order.length = 200) ∧
      (pageAt fetch (k + (m - 1))).order.length ≠ 200 := by
  induction fuel with
  | zero => intro k aP a r out h; simp [aggLoop] at h
  | succ fuel ih =>
    intro k aP a r out h
    rw [aggLoop] at h
    simp only [ltCap, Bool.and_true, if_true] at h
    cases hfetch : fetch k with
    | error e => rw [hfetch] at h; simp at h
    | ok resp =>
      rw [hfetch] at h
      dsimp only at h
      have hpage : pageAt fetch k = resp := by simp [pageAt, hfetch]
      by_cases hzero : resp.order.length = 0
      · rw [if_pos hzero] at h
        simp only [Option.some.injEq, Except.ok.injEq] at h
        refine ⟨1, le_refl 1, by simp [← h], by omega, ?_⟩
        simp [hpage]
        omega
      · rw [if_neg hzero] at h
        simp only [geCap, Bool.false_eq_true, if_false] at h
        cases h200 : decide (resp.order.length = 200) with
        | false =>
          rw [h200] at h
          have hout := aggLoop_hasMore_false h
          have : ¬ resp.order.length = 200 := of_decide_eq_false h200
          exact ⟨1, le_refl 1, by simp [hout], by omega, by simpa [hpage]⟩
        | true =>
          rw [h200] at h
          obtain ⟨m', hm', hr, hmid, hlast⟩ :=
            ih (k + 1) (objAssign aP resp.posts) (a ++ resp.order)
              (r ++ [k]) out h
          refine ⟨m' + 1, by omega, ?_, ?_, ?_⟩
          · rw [List.range'_succ, hr]
            simp
          · intro j hj
            cases j with
            | zero =>
              simpa [hpage] using of_decide_eq_true h200
            | succ j' =>
              have := hmid j' (by omega)
              rw [show k + (j' + 1) = k + 1 + j' by omega]
              exact this
          · rw [show k + (m' + 1 - 1) = k + 1 + (m' - 1) by omega]
            exact hlast

/-- On the well-behaved chunked upstream with a hard cap, every completed
non-throwing loop run whose state still owes `N` ids (the invariant
`N ≤ collected + remaining`) ends with at least `N` collected ids. -/
theorem aggLoop_chunk_reach {ι π : Type} [DecidableEq ι]
    (ids : List ι) (pOf : ι → π) (N : Nat) (fuel : Nat) :
    ∀ (k : Nat) (aP : List (ι × π)) (a : List ι) (r : List Nat)
      (out : LoopOut ι π),
    aggLoop (chunkFetch ids pOf) (some N) fuel true k aP a r =
      some (.ok out) →
    N ≤ a.length + (ids.length - 200 * k) →
    N ≤ out.order.length := by
  induction fuel with
  | zero => intro k aP a r out h _; simp [aggLoop] at h
  | succ fuel ih =>
    intro k aP a r out h hinv
    rw [aggLoop] at h
    cases hguard : ltCap a.length (some N) with
    | false =>
      rw [hguard] at h
      simp only [Bool.and_false, Bool.false_eq_true, if_false,
        Option.some.injEq, Except.ok.injEq] at h
      have hge : N ≤ a.length := by
        have := hguard
        simp only [ltCap, decide_eq_false_iff_not] at this
        omega
      rw [← h]
      exact hge
    | true =>
      rw [hguard] at h
      simp only [Bool.and_true, if_true, chunkFetch] at h
      dsimp only at h
      have hlen : ((ids.drop (200 * k)).take 200).length =
          min 200 (ids.length - 200 * k) := by
        simp
      by_cases hzero : ((ids.drop (200 * k)).take 200).length = 0
      · rw [if_pos hzero] at h
        simp only [Option.some.injEq, Except.ok.injEq] at h
        rw [← h]
        show N ≤ a.length
        omega
      · rw [if_neg hzero] at h
        cases hcap2 : geCap (a ++ (ids.drop (200 * k)).take 200).length
            (some N) with
        | true =>
          rw [hcap2] at h
          simp only [if_true, Option.some.injEq, Except.ok.injEq] at h
          have hge : N ≤ (a ++ (ids.drop (200 * k)).take 200).length := by
            simpa [geCap] using hcap2
          rw [← h]
          exact hge
        | false =>
          rw [hcap2] at h
          simp only [Bool.false_eq_true, if_false] at h
          have hlt : (a ++ (ids.drop (200 * k)).take 200).length < N := by
            have h2 := hcap2
            simp only [geCap, decide_eq_false_iff_not] at h2
            omega
          rw [List.length_append] at hlt
          have hfull : ((ids.drop (200 * k)).take 200).length = 200 := by
            omega
          rw [show (decide (((ids.drop (200 * k)).take 200).length = 200))
            = true from decide_eq_true hfull] at h
          apply ih (k + 1) (objAssign aP
              (((ids.drop (200 * k)).take 200).map (fun x => (x, pOf x))))
              (a ++ (ids.drop (200 * k)).take 200) (r ++ [k]) out h
          rw [List.length_append, hfull]
          omega

/-- A thrown page fetch aborts the whole loop with that error: if the first
`m` pages come back successful and full, the cap would still let the loop
continue past them, and the fetch of page `m` throws, then the loop's result
is exactly that error. -/
theorem aggLoop_error_prop {ι π : Type} [DecidableEq ι]
    (fetch : Nat → Except String (PostsResponse ι π)) (cap : Option Nat)
    (e : String) :
    ∀ (m fuel k : Nat) (aP : List (ι × π)) (a : List ι) (r : List Nat),
    (∀ j < m, fetch (k + j) = .ok (pageAt fetch (k + j)) ∧
      (pageAt fetch (k + j)).order.length = 200) →
    fetch (k + m) = .error e →
    (∀ j, j ≤ m → ltCap (a.length + 200 * j) cap = true) →
    m < fuel →
    aggLoop fetch cap fuel true k aP a r = some (.error e) := by
  intro m
  induction m with
  | zero =>
    intro fuel k aP a r _ he hcap hfuel
    cases fuel with
    | zero => omega
    | succ fuel =>
      rw [aggLoop]
      have : ltCap a.length cap = true := by simpa using hcap 0 (by omega)
      rw [this]
      simp only [Bool.and_true, if_true]
      rw [show k = k + 0 from rfl, he]
  | succ m ih =>
    intro fuel k aP a r hok he hcap hfuel
    cases fuel with
    | zero => omega
    | succ fuel =>
      rw [aggLoop]
      have hg : ltCap a.length cap = true := by simpa using hcap 0 (by omega)
      rw [hg]
      simp only [Bool.and_true, if_true]
      obtain ⟨hf0, hl0⟩ := hok 0 (by omega)
      rw [show k + 0 = k from rfl] at hf0 hl0
      rw [hf0]
      dsimp only
      rw [if_neg (by omega)]
      have hg1 : ltCap (a.length + 200 * 1) cap = true := hcap 1 (by omega)
      have hcap2 : geCap (a ++ (pageAt fetch k).order).length cap = false := by
        have := geCap_eq_false_of_ltCap hg1
        simpa [hl0] using this
      rw [hcap2]
      simp only [Bool.false_eq_true, if_false]
      rw [show (decide ((pageAt fetch k).order.length = 200)) = true from
        decide_eq_true hl0]
      apply ih fuel (k + 1)
      · intro j hj
        have := hok (j + 1) (by omega)
        rw [show k + (j + 1) = k + 1 + j by omega] at this
        exact this
      · rw [show k + 1 + m = k + (m + 1) by omega]
        exact he
      · intro j hj
        have := hcap (j + 1) (by omega)
        rw [List.length_append, hl0]
        rw [show a.length + 200 + 200 * j = a.length + 200 * (j + 1) by ring]
        exact this
      · omega

/-- Merging a source map whose keys are fresh (none of them occur in the
target, and the source itself has no duplicate keys) is plain concatenation:
this is the union of two disjoint id-to-item mappings. -/
theorem objAssign_eq_append {ι π : Type} [DecidableEq ι] :
    ∀ (src m : List (ι × π)),
    (src.map Prod.fst).Nodup →
    (∀ kv ∈ src, kv.1 ∉ m.map Prod.fst) →
    objAssign m src = m ++ src := by
  intro src
  induction src with
  | nil => intro m _ _; simp [objAssign]
  | cons kv rest ih =>
    intro m hnodup hdis
    have hknotm : kv.1 ∉ m.map Prod.fst := hdis kv (by simp)
    have hany : (m.any (fun e => decide (e.1 = kv.1))) = false := by
      rw [List.any_eq_false]
      intro e he
      simp only [decide_eq_true_eq]
      intro hcontra
      exact hknotm (hcontra ▸ List.mem_map_of_mem Prod.fst he)
    have hstep : assignOne m kv = m ++ [kv] := by
      simp [assignOne, hany]
    have hnodup' : (rest.map Prod.fst).Nodup := by
      simpa using hnodup.of_cons
    have hhead : kv.1 ∉ rest.map Prod.fst := by
      have := hnodup
      simp only [List.map_cons, List.nodup_cons] at this
      exact this.1
    have hdis' : ∀ kv' ∈ rest, kv'.1 ∉ (m ++ [kv]).map Prod.fst := by
      intro kv' hkv'
      simp only [List.map_append, List.mem_append, List.map_cons,
        List.map_nil, List.mem_singleton, not_or]
      constructor
      · exact hdis kv' (by simp [hkv'])
      · intro hcontra
        exact hhead (hcontra ▸ List.mem_map_of_mem Prod.fst hkv')
    calc objAssign m (kv :: rest)
        = objAssign (assignOne m kv) rest := rfl
      _ = objAssign (m ++ [kv]) rest := by rw [hstep]
      _ = (m ++ [kv]) ++ rest := ih (m ++ [kv]) hnodup' hdis'
      _ = m ++ kv :: rest := by simp

/-- Flattening pages whose id lists are pairwise disjoint and individually
duplicate-free yields a duplicate-free list. -/
theorem flatMap_order_nodup {ι π : Type}
    (fetch : Nat → Except String (PostsResponse ι π)) (l : List Nat)
    (hl : l.Nodup)
    (hn : ∀ i ∈ l, (pageAt fetch i).order.Nodup)
    (hd : ∀ i ∈ l, ∀ j ∈ l, i ≠ j →
      ∀ x ∈ (pageAt fetch i).order, x ∉ (pageAt fetch j).order) :
    (l.flatMap (fun i => (pageAt fetch i).order)).Nodup := by
  rw [List.nodup_flatMap]
  refine ⟨hn, ?_⟩
  rw [List.pairwise_iff_forall_sublist]
  intro i j hsub
  have hij : i ∈ l ∧ j ∈ l ∧ i ≠ j := by
    have hmem := hsub.subset
    refine ⟨hmem (by simp), hmem (by simp), ?_⟩
    intro hcontra
    subst hcontra
    have := hl.sublist hsub
    simp at this
  intro x hx1 hx2
  exact hd i hij.1 j hij.2.1 hij.2.2 x hx1 hx2

/-! ### Claim theorems -/

/-- C5: for every raw decoded payload that is a bare sequence, the
normalization step of `getChannels` and of `getUsers` produces an envelope
whose items field equals the payload and whose `total_count` equals the
payload's length. -/
theorem normalize_bare_array {χ υ : Type} (xs : List χ) (us : List υ) :
    normalizeChannels (.arr xs) =
      { channels := xs, total_count := xs.length } ∧
    normalizeUsers (.arr us) = { users := us, total_count := us.length } :=
  ⟨rfl, rfl⟩

/-- C6: for every raw decoded payload that is already an enveloped object
(not a bare array), the normalization step returns it unchanged, so applying
the normalization twice equals applying it once. -/
theorem normalize_envelope_id {χ : Type} (o : ChannelsResponse χ)
    (r : RawPayload χ (ChannelsResponse χ)) :
    normalizeChannels (.obj o) = o ∧
    normalizeChannels (.obj (normalizeChannels r)) = normalizeChannels r :=
  ⟨rfl, rfl⟩

/-- C9: a supplied `maxPosts` of 0 falls to the `Infinity` sentinel through
the `||` fallback, so the run is identical to a run with no cap supplied; on
a 5-id upstream it issues one request and returns all 5 ids rather than an
empty result after zero requests. -/
theorem getAll_maxPosts_zero_no_cap {ι π : Type} [DecidableEq ι]
    (fetch : Nat → Except String (PostsResponse ι π)) (fuel : Nat) :
    getAllPostsForChannel fetch (some 0) fuel =
      getAllPostsForChannel fetch none fuel ∧
    getAllPostsForChannel (chunkFetch [0, 1, 2, 3, 4] (fun k => k))
        (some 0) 3 =
      some (.ok (⟨[0, 1, 2, 3, 4],
        [(0, 0), (1, 1), (2, 2), (3, 3), (4, 4)], "", ""⟩, [0])) :=
  ⟨rfl, rfl⟩

/-- C10: a supplied filter with a falsy value — `since` 0, or an empty-string
`before` / `after` id — is omitted from the query parameters, exactly as if
the filter were absent. -/
theorem postsQuery_falsy_omitted (limit page : Nat) (s : Option Nat)
    (b a : Option String) :
    postsQuery limit page ⟨some 0, b, a⟩ =
      postsQuery limit page ⟨none, b, a⟩ ∧
    postsQuery limit page ⟨s, some "", a⟩ =
      postsQuery limit page ⟨s, none, a⟩ ∧
    postsQuery limit page ⟨s, b, some ""⟩ =
      postsQuery limit page ⟨s, b, none⟩ :=
  ⟨rfl, rfl, rfl⟩

/-- C7 counterexample: two non-success responses to the single-page post
fetch that differ only in their body text produce the identical error, so the
error of `getPostsForChannel` cannot carry the response body as the claim
states. -/
theorem getPosts_error_body_cex :
    getPostsForChannel (⟨500, "Internal Server Error", "bodyA", emptyPage⟩ :
        HttpResp (PostsResponse Nat Nat)) =
      getPostsForChannel ⟨500, "Internal Server Error", "bodyB", emptyPage⟩ ∧
    ("bodyA" : String) ≠ "bodyB" ∧
    respOk (⟨500, "Internal Server Error", "bodyA", emptyPage⟩ :
        HttpResp (PostsResponse Nat Nat)) = false :=
  ⟨rfl, by decide, rfl⟩

/-- C7 (amended): a non-success status terminates the single-page fetch with
an error; for `getChannels` the error carries status, status text and the
response body, while for `getPostsForChannel` it carries status and status
text only (the body is not read there). -/
theorem fetch_error_message_spec {ι π χ : Type}
    (r : HttpResp (PostsResponse ι π))
    (rc : HttpResp (RawPayload χ (ChannelsResponse χ)))
    (hr : respOk r = false) (hrc : respOk rc = false) :
    getPostsForChannel r = .error ("Failed to get posts: "
      ++ toString r.status ++ " " ++ r.statusText) ∧
    getChannels rc = .error ("Failed to get channels: "
      ++ toString rc.status ++ " " ++ rc.statusText ++ " - "
      ++ rc.bodyText) := by
  constructor
  · simp [getPostsForChannel, hr]
  · simp [getChannels, hrc]

/-- C7 amended witness: a concrete 500 to the post fetch and a concrete 404
to the channel fetch, with the exact error strings. -/
theorem fetch_error_message_spec_wit :
    getPostsForChannel (⟨500, "Internal Server Error", "boom", emptyPage⟩ :
        HttpResp (PostsResponse Nat Nat)) =
      .error "Failed to get posts: 500 Internal Server Error" ∧
    getChannels (⟨404, "Not Found", "missing",
        RawPayload.arr ([] : List Nat)⟩ :
        HttpResp (RawPayload Nat (ChannelsResponse Nat))) =
      .error "Failed to get channels: 404 Not Found - missing" :=
  fetch_error_message_spec
    ⟨500, "Internal Server Error", "boom", emptyPage⟩
    ⟨404, "Not Found", "missing", RawPayload.arr ([] : List Nat)⟩
    rfl rfl

/-- C1 counterexample: supplying the cap `maxPosts = 0` does not bound the
result (the `||` fallback replaces 0 by the no-cap sentinel), so a one-page
one-id upstream returns 1 id, which exceeds the supplied cap 0. -/
theorem getAll_cap_zero_cex :
    getAllPostsForChannel (chunkFetch [42] (fun _ => (0 : Nat))) (some 0) 3 =
      some (.ok (⟨[42], [(42, 0)], "", ""⟩, [0])) ∧
    ¬ ((⟨[42], [(42, 0)], "", ""⟩ :
      PostsResponse Nat Nat).order.length ≤ 0) :=
  ⟨rfl, by decide⟩

/-- C1 (amended to nonzero caps): every completed non-throwing aggregation
run with a supplied cap `maxPosts = N ≥ 1` returns at most `N` ids, and when
the upstream collection (served in 200-chunks) holds at least `N` ids it
returns exactly `N` ids — the result is truncated to the cap, never
over-long. -/
theorem getAll_cap_spec {ι π : Type} [DecidableEq ι]
    (fetch : Nat → Except String (PostsResponse ι π)) (N fuel : Nat)
    (out : PostsResponse ι π × List Nat) (hN : 1 ≤ N)
    (h : getAllPostsForChannel fetch (some N) fuel = some (.ok out)) :
    out.1.order.length ≤ N ∧
    (∀ (ids : List ι) (pOf : ι → π), fetch = chunkFetch ids pOf →
      N ≤ ids.length → out.1.order.length = N) := by
  have hcap : capOf (some N) = some N := by
    cases N with
    | zero => omega
    | succ n => rfl
  rw [getAllPostsForChannel, hcap] at h
  cases hrun : aggLoop fetch (some N) fuel true 0 [] [] [] with
  | none => rw [hrun] at h; simp at h
  | some exc =>
    cases exc with
    | error e => rw [hrun] at h; simp at h
    | ok lout =>
      rw [hrun] at h
      simp only [Option.some.injEq, Except.ok.injEq] at h
      have hord : out.1.order = lout.order.take N := by
        rw [← h]
        simp [takeCap]
      constructor
      · rw [hord, List.length_take]
        omega
      · intro ids pOf hfeq hM
        subst hfeq
        have hreach := aggLoop_chunk_reach ids pOf N fuel 0 [] [] [] lout
          hrun (by simpa using hM)
        rw [hord, List.length_take]
        omega

set_option maxRecDepth 10000 in
/-- C1 amended witness: 250 upstream ids, cap 230: the run completes with
exactly 230 ids. -/
theorem getAll_cap_spec_wit :
    c1out.1.order.length ≤ 230 ∧ c1out.1.order.length = 230 := by
  have h := getAll_cap_spec (chunkFetch (List.range 250) (fun k => k)) 230 3
    c1out (by omega) rfl
  exact ⟨h.1, h.2 (List.range 250) (fun k => k) rfl (by decide)⟩

/-- C3: if the first `m` pages come back successful and full, the cap still
lets the loop continue past them, and the fetch of page `m` throws, then the
whole aggregation fails with exactly that error — by the shape of the result
(`Except.error` carries only the error) none of the ids already collected
from the earlier pages is returned to the caller. -/
theorem getAll_error_propagates {ι π : Type} [DecidableEq ι]
    (fetch : Nat → Except String (PostsResponse ι π)) (maxPosts : Option Nat)
    (e : String) (m fuel : Nat)
    (hok : ∀ j < m, fetch j = .ok (pageAt fetch j) ∧
      (pageAt fetch j).order.length = 200)
    (he : fetch m = .error e)
    (hcap : ∀ j, j ≤ m → ltCap (200 * j) (capOf maxPosts) = true)
    (hfuel : m < fuel) :
    getAllPostsForChannel fetch maxPosts fuel = some (.error e) := by
  have hloop := aggLoop_error_prop fetch (capOf maxPosts) e m fuel 0 [] [] []
    (by simpa using hok) (by simpa using he) (by simpa using hcap) hfuel
  rw [getAllPostsForChannel, hloop]

/-- C3 witness: page 0 succeeds with 200 ids, page 1 answers HTTP 500, and
the whole uncapped aggregation fails with the page fetch's error. -/
theorem getAll_error_propagates_wit :
    getAllPostsForChannel (fetchOfNet c3net) none 5 =
      some (.error "Failed to get posts: 500 Internal Server Error") := by
  apply getAll_error_propagates (fetchOfNet c3net) none
    "Failed to get posts: 500 Internal Server Error" 1 5
  · intro j hj
    interval_cases j
    exact ⟨rfl, rfl⟩
  · rfl
  · intro j hj
    rfl
  · omega

set_option maxRecDepth 10000 in
/-- C8 counterexample: with overlapping upstream pages (page 0 holds ids
0-199, page 1 holds id 0 again) the returned order contains id 0 twice — the
loop appends every page's order without any cross-page deduplication. -/
theorem getAll_order_dup_cex :
    getAllPostsForChannel
        (twoPageFetch (⟨List.range 200, [], "", ""⟩ : PostsResponse Nat Nat)
          ⟨[0], [], "", ""⟩) none 4 =
      some (.ok (⟨List.range 200 ++ [0], [], "", ""⟩, [0, 1])) ∧
    ¬ (List.range 200 ++ [0]).Nodup :=
  ⟨rfl, by decide⟩

/-- C8 (amended to disjoint pages): in every completed non-throwing
aggregation run whose fetched pages have individually duplicate-free and
pairwise disjoint orders, the returned order has no duplicate ids. -/
theorem getAll_order_nodup {ι π : Type} [DecidableEq ι]
    (fetch : Nat → Except String (PostsResponse ι π)) (maxPosts : Option Nat)
    (fuel : Nat) (out : PostsResponse ι π × List Nat)
    (h : getAllPostsForChannel fetch maxPosts fuel = some (.ok out))
    (hn : ∀ i ∈ out.2, (pageAt fetch i).order.Nodup)
    (hd : ∀ i ∈ out.2, ∀ j ∈ out.2, i ≠ j →
      ∀ x ∈ (pageAt fetch i).order, x ∉ (pageAt fetch j).order) :
    out.1.order.Nodup := by
  rw [getAllPostsForChannel] at h
  cases hrun : aggLoop fetch (capOf maxPosts) fuel true 0 [] [] [] with
  | none => rw [hrun] at h; simp at h
  | some exc =>
    cases exc with
    | error e => rw [hrun] at h; simp at h
    | ok lout =>
      rw [hrun] at h
      simp only [Option.some.injEq, Except.ok.injEq] at h
      obtain ⟨m, hr, hok, hord, hposts⟩ :=
        aggLoop_ok_struct fetch (capOf maxPosts) fuel 0 [] [] [] lout hrun
      have hreqs : out.2 = List.range' 0 m := by
        rw [← h]
        simpa using hr
      have hflat : lout.order =
          (List.range' 0 m).flatMap (fun i => (pageAt fetch i).order) := by
        simpa using hord
      have hnodup : ((List.range' 0 m).flatMap
          (fun i => (pageAt fetch i).order)).Nodup := by
        apply flatMap_order_nodup
        · exact List.nodup_range' 0 m
        · intro i hi
          exact hn i (by rw [hreqs]; exact hi)
        · intro i hi j hj hij
          exact hd i (by rw [hreqs]; exact hi) j (by rw [hreqs]; exact hj) hij
      have hord2 : out.1.order = takeCap (capOf maxPosts) lout.order := by
        rw [← h]
      rw [hord2, hflat]
      rcases capOf maxPosts with _ | c
      · exact hnodup
      · exact hnodup.sublist (List.take_sublist c _)

/-- C8 amended witness: a single disjoint duplicate-free page yields a
duplicate-free order. -/
theorem getAll_order_nodup_wit : c8out.1.order.Nodup := by
  apply getAll_order_nodup c8fetch none 3 c8out rfl
  · decide
  · decide

set_option maxRecDepth 10000 in
/-- C2 counterexample: in a capped run (cap 50) page 0 comes back with the
full per-page size 200, yet the aggregator issues no request for page 1 —
the claim's continuation rule fails once the cap intervenes. -/
theorem getAll_full_page_capped_cex :
    getAllPostsForChannel (chunkFetch (List.range 400) (fun k => k))
        (some 50) 3 =
      some (.ok (⟨List.range 50,
        (List.range 200).map (fun k => (k, k)), "", ""⟩, [0])) ∧
    (pageAt (chunkFetch (List.range 400) (fun k => (k : Nat))) 0).order.length
      = 200 ∧
    (1 : Nat) ∉ ([0] : List Nat) :=
  ⟨rfl, rfl, by decide⟩

/-- C2 (amended to uncapped runs): in every completed non-throwing
aggregation run without a cap, a fetched page whose order has length exactly
200 (the fixed per-page size) is followed by a request for the next page
index, and a fetched page whose order is strictly shorter than 200 (including
empty) is the last request of the run. -/
theorem getAll_continuation_spec {ι π : Type} [DecidableEq ι]
    (fetch : Nat → Except String (PostsResponse ι π)) (fuel : Nat)
    (out : PostsResponse ι π × List Nat)
    (h : getAllPostsForChannel fetch none fuel = some (.ok out))
    (p : Nat) (resp : PostsResponse ι π)
    (hmem : p ∈ out.2) (hresp : fetch p = .ok resp) :
    (resp.order.length = 200 → p + 1 ∈ out.2) ∧
    (resp.order.length < 200 → ∀ q, p < q → q ∉ out.2) := by
  rw [getAllPostsForChannel] at h
  simp only [capOf] at h
  cases hrun : aggLoop fetch none fuel true 0 [] [] [] with
  | none => rw [hrun] at h; simp at h
  | some exc =>
    cases exc with
    | error e => rw [hrun] at h; simp at h
    | ok lout =>
      rw [hrun] at h
      simp only [Option.some.injEq, Except.ok.injEq] at h
      obtain ⟨m, hm1, hr, hmid, hlast⟩ :=
        aggLoop_none_struct fetch fuel 0 [] [] [] lout hrun
      have hout2 : out.2 = List.range' 0 m := by
        rw [← h]
        simpa using hr
      have hpeq : pageAt fetch p = resp := by simp [pageAt, hresp]
      have hpm : p < m := by
        rw [hout2] at hmem
        have := List.mem_range'_1.mp hmem
        omega
      constructor
      · intro h200
        rw [hout2]
        by_cases hpe : p = m - 1
        · exfalso
          apply hlast
          rw [show 0 + (m - 1) = p by omega, hpeq]
          exact h200
        · exact List.mem_range'_1.mpr ⟨by omega, by omega⟩
      · intro hlt q hq hqmem
        rw [hout2] at hqmem
        have hqm : q < m := by
          have := List.mem_range'_1.mp hqmem
          omega
        have := hmid p (by omega)
        rw [show 0 + p = p by omega, hpeq] at this
        omega

set_option maxRecDepth 10000 in
/-- C2 amended witness: the scenario of three upstream pages sized
200, 200, 47 with no cap: exactly the requests 0, 1, 2 are issued (page 1's
full predecessor triggers request 2, undersized page 2 triggers no request 3)
and 447 ids are returned. -/
theorem getAll_continuation_spec_wit :
    ((2 : Nat) ∈ c2out.2 ∧ (3 : Nat) ∉ c2out.2) ∧
    c2out.2 = [0, 1, 2] ∧ c2out.1.order.length = 447 := by
  refine ⟨⟨?_, ?_⟩, rfl, rfl⟩
  · exact (getAll_continuation_spec c2fetch 5 c2out rfl 1 (pageAt c2fetch 1)
      (by decide) rfl).1 (by decide)
  · exact (getAll_continuation_spec c2fetch 5 c2out rfl 2 (pageAt c2fetch 2)
      (by decide) rfl).2 (by decide) 3 (by decide)

/-- C4: every completed non-throwing uncapped aggregation run over exactly
the two consecutive upstream pages `p1` (full, so that the run reaches the
second page) and `p2`, whose id-to-item mappings have duplicate-free and
mutually disjoint key sets (and whose posts are empty when their order is —
page well-formedness), returns `p1.order ++ p2.order` as its order and the
union `p1.posts ++ p2.posts` of the two mappings as its posts. -/
theorem getAll_two_pages_merge {ι π : Type} [DecidableEq ι]
    (p1 p2 : PostsResponse ι π) (fuel : Nat)
    (out : PostsResponse ι π × List Nat)
    (hfull : p1.order.length = 200)
    (hk1 : (p1.posts.map Prod.fst).Nodup)
    (hk2 : (p2.posts.map Prod.fst).Nodup)
    (hdisj : ∀ kv ∈ p2.posts, kv.1 ∉ p1.posts.map Prod.fst)
    (hvalid : p2.order = [] → p2.posts = [])
    (h : getAllPostsForChannel (twoPageFetch p1 p2) none fuel =
      some (.ok out)) :
    out.1.order = p1.order ++ p2.order ∧
    out.1.posts = p1.posts ++ p2.posts := by
  rw [getAllPostsForChannel] at h
  simp only [capOf] at h
  cases hrun : aggLoop (twoPageFetch p1 p2) none fuel true 0 [] [] [] with
  | none => rw [hrun] at h; simp at h
  | some exc =>
    cases exc with
    | error e => rw [hrun] at h; simp at h
    | ok lout =>
      rw [hrun] at h
      simp only [Option.some.injEq, Except.ok.injEq] at h
      have hp0 : pageAt (twoPageFetch p1 p2) 0 = p1 := rfl
      have hp1 : pageAt (twoPageFetch p1 p2) 1 = p2 := rfl
      have hp2e : pageAt (twoPageFetch p1 p2) 2 = emptyPage := rfl
      obtain ⟨m, hr, hok, hord, hposts⟩ :=
        aggLoop_ok_struct (twoPageFetch p1 p2) none fuel 0 [] [] [] lout hrun
      obtain ⟨m', hm1, hr', hmid, hlast⟩ :=
        aggLoop_none_struct (twoPageFetch p1 p2) fuel 0 [] [] [] lout hrun
      have hmm : m = m' := by
        have h2 : List.range' 0 m = List.range' 0 m' := by
          have h3 := hr.symm.trans hr'
          simpa using h3
        have h4 := congrArg List.length h2
        simpa using h4
      subst hmm
      have hm3 : m ≤ 3 := by
        by_contra hgt
        have h5 := hmid 2 (by omega)
        rw [show (0 : Nat) + 2 = 2 from rfl, hp2e] at h5
        simp [emptyPage] at h5
      have hm1' : m ≠ 1 := by
        intro h1
        subst h1
        rw [show (0 : Nat) + (1 - 1) = 0 from rfl, hp0] at hlast
        exact hlast hfull
      have hne1 : p1.order ≠ [] := by
        intro hc
        rw [hc] at hfull
        simp at hfull
      have hP1 : objAssign [] p1.posts = p1.posts := by
        have := objAssign_eq_append p1.posts [] hk1 (by simp)
        simpa using this
      have hA : out.1.order = lout.order := by
        rw [← h]
        rfl
      have hB : out.1.posts = lout.posts := by
        rw [← h]
      by_cases h2full : p2.order.length = 200
      · have hm2 : m ≠ 2 := by
          intro h2
          subst h2
          rw [show (0 : Nat) + (2 - 1) = 1 from rfl, hp1] at hlast
          exact hlast h2full
        have hm : m = 3 := by omega
        subst hm
        have hne2 : p2.order ≠ [] := by
          intro hc
          rw [hc] at h2full
          simp at h2full
        have hrange : List.range' 0 3 = [0, 1, 2] := rfl
        constructor
        · rw [hA, hord, hrange]
          simp [hp0, hp1, hp2e, emptyPage]
        · rw [hB, hposts, hrange]
          have hfilter : ([0, 1, 2].filter
              (fun i => !(pageAt (twoPageFetch p1 p2) i).order.isEmpty))
              = [0, 1] := by
            have hb1 : p1.order.isEmpty = false :=
              List.isEmpty_eq_false.mpr hne1
            have hb2 : p2.order.isEmpty = false :=
              List.isEmpty_eq_false.mpr hne2
            simp [List.filter, hp0, hp1, hp2e, emptyPage, hb1, hb2]
          rw [hfilter]
          simp only [List.foldl_cons, List.foldl_nil, hp0, hp1]
          rw [hP1]
          exact objAssign_eq_append p2.posts p1.posts hk2 hdisj
      · have hm : m = 2 := by
          by_contra hne
          have hm3' : m = 3 := by omega
          subst hm3'
          have h5 := hmid 1 (by omega)
          rw [show (0 : Nat) + 1 = 1 from rfl, hp1] at h5
          exact h2full h5
        subst hm
        have hrange : List.range' 0 2 = [0, 1] := rfl
        constructor
        · rw [hA, hord, hrange]
          simp [hp0, hp1]
        · rw [hB, hposts, hrange]
          by_cases hord2 : p2.order = []
          · have hposts2 : p2.posts = [] := hvalid hord2
            have hfilter : ([0, 1].filter
                (fun i => !(pageAt (twoPageFetch p1 p2) i).order.isEmpty))
                = [0] := by
              have hb1 : p1.order.isEmpty = false :=
                List.isEmpty_eq_false.mpr hne1
              simp [List.filter, hp0, hp1, hord2, hb1]
            rw [hfilter]
            simp only [List.foldl_cons, List.foldl_nil, hp0]
            rw [hP1, hposts2]
            simp
          · have hfilter : ([0, 1].filter
                (fun i => !(pageAt (twoPageFetch p1 p2) i).order.isEmpty))
                = [0, 1] := by
              have hb1 : p1.order.isEmpty = false :=
                List.isEmpty_eq_false.mpr hne1
              have hb2 : p2.order.isEmpty = false :=
                List.isEmpty_eq_false.mpr hord2
              simp [List.filter, hp0, hp1, hb1, hb2]
            rw [hfilter]
            simp only [List.foldl_cons, List.foldl_nil, hp0, hp1]
            rw [hP1]
            exact objAssign_eq_append p2.posts p1.posts hk2 hdisj

set_option maxRecDepth 10000 in
/-- C4 witness: the concrete pages `c4p1` (ids 0-199) and `c4p2` (ids 500,
501): the completed run returns the concatenated order and the union of the
two mappings. -/
theorem getAll_two_pages_merge_wit :
    c4out.1.order = c4p1.order ++ c4p2.order ∧
    c4out.1.posts = c4p1.posts ++ c4p2.posts := by
  apply getAll_two_pages_merge c4p1 c4p2 3 c4out
  · decide
  · decide
  · decide
  · decide
  · decide
  · rfl

end Mattermost

